import Mathlib

/-!
Verification of the Intigeo data-logger parser and aggregator
(`parse-logger.py`) against its natural-language specification.

The Python source is shallowly embedded: the per-file parsing state
machine, the cross-file merge and the forward-fill interpolation become
Lean functions over explicit state; Python dictionaries become
association lists (insertion ordered, like `OrderedDict`); a value that
may be absent from a dictionary is `Option`-wrapped a second level, so
`none` is "key absent" and `some none` is Python's explicit `None`.
Fatal Python exceptions (`KeyError`, `ZeroDivisionError`, `IndexError`,
`ValueError`) become an `Except` error monad that nothing catches, since
the script's only handler catches `IOError` alone.  Python float
arithmetic on the drift rate is modelled by exact rationals, and the
process-local timezone used by `time.mktime` / `datetime.fromtimestamp`
is modelled as a fixed zero offset (both functions use the same zone, so
the choice cancels in every statement proved here).
-/

set_option maxRecDepth 20000

/-! ## TimeCodec: `parse_time` and `time_to_string` -/

/-- Leap-year rule of the proleptic Gregorian calendar, as used by
Python's `datetime`. -/
def isLeap (y : Nat) : Bool := (y % 4 == 0 && y % 100 != 0) || (y % 400 == 0)

/-- Number of days in year `y`. -/
def daysInYear (y : Nat) : Nat := if isLeap y then 366 else 365

/-- Number of days in month `m` (1-12) of year `y`; 0 outside 1-12. -/
def daysInMonth (y m : Nat) : Nat :=
  if m = 1 then 31
  else if m = 2 then (if isLeap y then 29 else 28)
  else if m = 3 then 31
  else if m = 4 then 30
  else if m = 5 then 31
  else if m = 6 then 30
  else if m = 7 then 31
  else if m = 8 then 31
  else if m = 9 then 30
  else if m = 10 then 31
  else if m = 11 then 30
  else if m = 12 then 31
  else 0

/-- Total days of the `k` consecutive months starting at month `m` of
year `y` (months never cross a year here). -/
def sumMonths (y : Nat) : Nat → Nat → Nat
  | _, 0 => 0
  | m, k + 1 => daysInMonth y m + sumMonths y (m + 1) k

/-- Days in year `y` strictly before month `m`. -/
def daysBeforeMonth (y m : Nat) : Nat := sumMonths y 1 (m - 1)

/-- Days strictly before January 1 of year `y`, counted from
0001-01-01 (closed Gregorian form). -/
def daysBeforeYear (y : Nat) : Nat :=
  365 * (y - 1) + (y - 1) / 4 - (y - 1) / 100 + (y - 1) / 400

/-- A civil date-time: the six components read from the logger's
`DD/MM/YYYY HH:MM:SS` strings. -/
structure Civil where
  year : Nat
  month : Nat
  day : Nat
  hour : Nat
  minute : Nat
  second : Nat
deriving DecidableEq

/-- The range checks performed by `datetime` when `strptime` builds a
date: valid month, day within the month, time-of-day fields in range,
year within `datetime`'s supported span. -/
def validCivil (c : Civil) : Bool :=
  1 ≤ c.year && c.year ≤ 9999 && 1 ≤ c.month && c.month ≤ 12 &&
  1 ≤ c.day && c.day ≤ daysInMonth c.year c.month &&
  c.hour ≤ 23 && c.minute ≤ 59 && c.second ≤ 59

/-- Days from 0001-01-01 to the date of `c`. -/
def daysSinceY1 (c : Civil) : Nat :=
  daysBeforeYear c.year + daysBeforeMonth c.year c.month + (c.day - 1)

/-- Days from 0001-01-01 to 1970-01-01, the Unix epoch. -/
def epoch1970days : Nat := daysBeforeYear 1970

/-- `time.mktime` on the struct produced by `strptime`: seconds since
the Unix epoch (timezone modelled as a fixed zero offset). -/
def mktime (c : Civil) : Int :=
  ((daysSinceY1 c : Int) - (epoch1970days : Int)) * 86400 +
    (c.hour * 3600 + c.minute * 60 + c.second)

/-- Decimal digit value of a character, when it is a digit. -/
def digitVal (c : Char) : Option Nat :=
  if c.isDigit then some (c.toNat - 48) else none

/-- Read two decimal digits from the front of a character list. -/
def parse2 : List Char → Option (Nat × List Char)
  | a :: b :: rest =>
    match digitVal a, digitVal b with
    | some x, some y => some (10 * x + y, rest)
    | _, _ => none
  | _ => none

/-- Require a literal separator character. -/
def expectChar (c : Char) : List Char → Option (List Char)
  | d :: rest => if d = c then some rest else none
  | [] => none

/-- The `strptime(timestring, %d/%m/%Y %H:%M:%S)` pattern match: the
six numeric fields of a `DD/MM/YYYY HH:MM:SS` string (canonical
zero-padded widths). -/
def matchDateTime (s : String) : Option Civil := do
  let (dd, r1) ← parse2 s.toList
  let r2 ← expectChar '/' r1
  let (mm, r3) ← parse2 r2
  let r4 ← expectChar '/' r3
  let (y1, r5) ← parse2 r4
  let (y2, r6) ← parse2 r5
  let r7 ← expectChar ' ' r6
  let (hh, r8) ← parse2 r7
  let r9 ← expectChar ':' r8
  let (mi, r10) ← parse2 r9
  let r11 ← expectChar ':' r10
  let (ss, r12) ← parse2 r11
  if r12 = [] then some ⟨100 * y1 + y2, mm, dd, hh, mi, ss⟩ else none

/-- `parse_time`: unix timestamp of a `DD/MM/YYYY HH:MM:SS` string, or
the sentinel 0 when the string does not match the format or the date is
out of range (the Python `except` swallows every failure). -/
def parse_time (s : String) : Int :=
  match matchDateTime s with
  | some c => if validCivil c then mktime c else 0
  | none => 0

/-- Recover `(year, day-of-year)` from a day count, scanning years
upward from `base`; `fuel` bounds the recursion (one unit per year). -/
def findYear : Nat → Nat → Nat → Nat × Nat
  | 0, d, y => (y, d)
  | fuel + 1, d, y =>
    if d < daysInYear y then (y, d) else findYear fuel (d - daysInYear y) (y + 1)

/-- Recover `(month, day-of-month0)` from a day-of-year, scanning
months upward from `m`. -/
def findMonthAux : Nat → Nat → Nat → Nat → Nat × Nat
  | 0, _, m, d => (m, d)
  | fuel + 1, y, m, d =>
    if d < daysInMonth y m then (m, d)
    else findMonthAux fuel y (m + 1) (d - daysInMonth y m)

/-- Civil date `(year, month, day)` of a day count from 0001-01-01. -/
def fromDays (d : Nat) : Nat × Nat × Nat :=
  let yd := findYear (d + 1) d 1
  let md := findMonthAux 12 yd.1 1 yd.2
  (yd.1, md.1, md.2 + 1)

/-- Two-digit zero-padded decimal rendering, as `strftime`'s `%d`,
`%m`, `%H`, `%M`, `%S` produce. -/
def pad2List (n : Nat) : List Char := [Nat.digitChar (n / 10), Nat.digitChar (n % 10)]

/-- `strftime(%Y-%m-%d %H:%M:%S)` given the six components (`%Y`
rendered as two two-digit halves, i.e. four digits for the years the
codec handles). -/
def formatYMDHMS (y m d hh mi ss : Nat) : String :=
  String.mk (pad2List (y / 100) ++ pad2List (y % 100) ++ '-' :: pad2List m ++
    '-' :: pad2List d ++ ' ' :: pad2List hh ++ ':' :: pad2List mi ++ ':' :: pad2List ss)

/-- Format a `(day count, seconds of day)` pair. -/
def formatDaysTod (days tod : Nat) : String :=
  formatYMDHMS (fromDays days).1 (fromDays days).2.1 (fromDays days).2.2
    (tod / 3600) (tod % 3600 / 60) (tod % 60)

/-- `time_to_string`: `datetime.fromtimestamp(t).strftime(%Y-%m-%d
%H:%M:%S)` (same fixed zone as `mktime`; timestamps before 0001-01-01
are clamped, `fromtimestamp` would fail there). -/
def time_to_string (t : Int) : String :=
  let total := (t + (epoch1970days : Int) * 86400).toNat
  formatDaysTod (total / 86400) (total % 86400)

/-- Display form of a civil date-time, `YYYY-MM-DD HH:MM:SS`. -/
def renderDisplay (c : Civil) : String :=
  formatYMDHMS c.year c.month c.day c.hour c.minute c.second

/-! ## Data model: fields, readings, timelines, fatal errors -/

/-- The hours the times are adjusted by to make them local
(`timezone_offset = 4`). -/
def timezone_offset : Int := 4

/-- The eleven per-reading output columns the script manipulates. -/
inductive FieldKind where
  | time
  | localtime
  | temp
  | light
  | wets
  | wetdry
  | duration
  | wet_temp_min
  | wet_temp_max
  | wet_temp_mean
  | wet_temp_samples
deriving DecidableEq, Fintype

/-- One reading: a Python dict from field name to value.  `none` means
the key is absent from the dict; `some none` is an explicit `None`
value; `some (some s)` is a string value. -/
abbrev Reading := FieldKind → Option (Option String)

/-- The empty dict `{}`. -/
def emptyReading : Reading := fun _ => none

/-- Store a (possibly `None`) value under field `f`. -/
def setF (r : Reading) (f : FieldKind) (v : Option String) : Reading :=
  Function.update r f (some v)

/-- An `OrderedDict` from adjusted-time key to reading: an association
list in insertion order, keys unique by construction. -/
abbrev Timeline := List (String × Reading)

/-- Dict lookup. -/
def getEntry (tl : Timeline) (k : String) : Option Reading := tl.lookup k

/-- Dict store: replace in place when the key exists, else append (the
`OrderedDict` update order). -/
def putEntry : Timeline → String → Reading → Timeline
  | [], k, r => [(k, r)]
  | (k', r') :: rest, k, r =>
    if k' = k then (k, r) :: rest else (k', r') :: putEntry rest k r

/-- The uncaught Python exceptions that abort the run: the script's
only handler catches `IOError` alone. -/
inductive Err where
  | keyError
  | divisionByZero
  | indexError
  | valueError
deriving DecidableEq

instance {ε α : Type} [DecidableEq ε] [DecidableEq α] : DecidableEq (Except ε α)
  | .ok a, .ok b =>
    if h : a = b then .isTrue (by rw [h]) else .isFalse (by intro hc; cases hc; exact h rfl)
  | .error a, .error b =>
    if h : a = b then .isTrue (by rw [h]) else .isFalse (by intro hc; cases hc; exact h rfl)
  | .ok _, .error _ => .isFalse (by intro hc; cases hc)
  | .error _, .ok _ => .isFalse (by intro hc; cases hc)

/-! ## FileParser: the `read_data_file` state machine -/

/-- Mutable state of one `read_data_file` call. -/
structure PState where
  start : Int
  end_ : Int
  drift : Int
  dps : ℚ
  field : Option FieldKind
  in_data : Bool
  data : Timeline
deriving DecidableEq

def initPState : PState :=
  { start := 0, end_ := 0, drift := 0, dps := 0, field := none,
    in_data := false, data := [] }

/-- An apostrophe, kept out of string literals. -/
def apos : Char := Char.ofNat 39

/-- The header label of temperature files. -/
def labelTemp : String := "T(" ++ String.singleton apos ++ "C)"

/-- The header label of wet-temperature files. -/
def labelWetMin : String := "wet min(" ++ String.singleton apos ++ "C)"

/-- The `fields` mapping from header labels to storage fields. -/
def fieldsTable : List (String × FieldKind) :=
  [(labelTemp, .temp), ("light(lux)", .light), ("wets0-50", .wets),
   (labelWetMin, .wet_temp_min), ("wet/dry", .wetdry), ("duration", .duration)]

/-- `fields[label]`, as an option instead of a raising lookup. -/
def labelField (label : String) : Option FieldKind := fieldsTable.lookup label

/-- Column-header pattern `^DD/MM/YYYY HH:MM:SS\t(.*?)(\t(.*?))?$`:
the capture is the text between the fixed prefix and the next tab. -/
def colHeaderPre : String := "DD/MM/YYYY HH:MM:SS\t"

def matchColHeader (line : String) : Option String :=
  if line.startsWith colHeaderPre then
    some (((line.drop colHeaderPre.length).splitOn "\t").headI)
  else none

/-- Shared shape of `^Programmed: (.*?)\.` and `^Drift \(secs\): (.*?)\.`:
a fixed prefix, then a non-greedy capture that must be closed by a
literal dot. -/
def matchPrefixUpToDot (pre line : String) : Option String :=
  if line.startsWith pre then
    let parts := (line.drop pre.length).splitOn "."
    if 2 ≤ parts.length then some parts.headI else none
  else none

def matchProgrammed (line : String) : Option String :=
  matchPrefixUpToDot "Programmed: " line

def matchDrift (line : String) : Option String :=
  matchPrefixUpToDot "Drift (secs): " line

/-- Pattern `^End of logging \(DD/MM/YYYY HH:MM:SS\): (.*?)$`. -/
def endLoggingPre : String := "End of logging (DD/MM/YYYY HH:MM:SS): "

def matchEndOfLogging (line : String) : Option String :=
  if line.startsWith endLoggingPre then some (line.drop endLoggingPre.length)
  else none

/-- Python `int(...)` on the captured drift text: optional sign and
decimal digits, surrounding whitespace tolerated. -/
def parseIntPy (s : String) : Option Int :=
  let t := s.trim
  if t.startsWith "-" then ((t.drop 1).toNat?).map (fun n => -(n : Int))
  else if t.startsWith "+" then ((t.drop 1).toNat?).map (fun n => (n : Int))
  else (t.toNat?).map (fun n => (n : Int))

/-- One header-state line: the four regexes tried in priority order;
lines matching none are ignored.  An unknown column label raises
`KeyError`; a malformed drift count raises `ValueError`; a zero-length
drift window raises `ZeroDivisionError`. -/
def processHeaderLine (st : PState) (line : String) : Except Err PState :=
  match matchColHeader line with
  | some label =>
    match labelField label with
    | none => .error .keyError
    | some f =>
      .ok { st with field := some (if f = FieldKind.duration then FieldKind.wetdry else f),
                    in_data := true }
  | none =>
  match matchProgrammed line with
  | some ts => .ok { st with start := parse_time ts }
  | none =>
  match matchEndOfLogging line with
  | some ts => .ok { st with end_ := parse_time ts }
  | none =>
  match matchDrift line with
  | some ds =>
    match parseIntPy ds with
    | none => .error .valueError
    | some d =>
      if st.end_ - st.start = 0 then .error .divisionByZero
      else .ok { st with drift := d,
                         dps := (d : ℚ) / (((st.end_ : ℚ)) - ((st.start : ℚ))) }
  | none => .ok st

/-- `row[i]`, raising `IndexError` past the end. -/
def col (row : List String) (i : Nat) : Except Err String :=
  match row.get? i with
  | some v => .ok v
  | none => .error .indexError

/-- Store the field columns dictated by the active field kind into the
reading at key `atime` (the tail of the data-state line handler). -/
def storeFields (st : PState) (row : List String) (base : Reading)
    (atime : String) : Except Err PState :=
  match st.field with
      | some .wetdry =>
        match col row 2, col row 1 with
        | .ok v2, .ok v1 =>
          let r := setF (setF base .wetdry (some v2)) .duration (some v1)
          .ok { st with data := putEntry st.data atime r }
        | .error e, _ => .error e
        | _, .error e => .error e
      | some .wet_temp_min =>
        match col row 1, col row 2, col row 3, col row 4 with
        | .ok v1, .ok v2, .ok v3, .ok v4 =>
          let r := setF (setF (setF (setF base .wet_temp_min (some v1))
            .wet_temp_max (some v2)) .wet_temp_mean (some v3))
            .wet_temp_samples (some v4)
          .ok { st with data := putEntry st.data atime r }
        | .error e, _, _, _ => .error e
        | _, .error e, _, _ => .error e
        | _, _, .error e, _ => .error e
        | _, _, _, .error e => .error e
      | some f =>
        match col row 1 with
        | .ok v1 =>
          let r := setF base f (some v1)
          .ok { st with data := putEntry st.data atime r }
        | .error e => .error e
      | none =>
        -- unreachable in any run: `in_data` is only set together with a
        -- field; Python would store row[1] under dict key None, which
        -- the merge never reads, so the model keeps only the row read.
        match col row 1 with
        | .ok _ => .ok { st with data := putEntry st.data atime base }
        | .error e => .error e

/-- One data-state line: split on tabs, skip empty or unparseable
times, apply the drift correction, and store the columns dictated by
the active field.  The drift term stays an exact rational; formatting
the key truncates it to whole seconds (as `fromtimestamp(...).strftime`
drops the sub-second part). -/
def processDataLine (st : PState) (line : String) : Except Err PState :=
  let row := line.splitOn "\t"
  if row.headI = "" then .ok st
  else
    let t := parse_time row.headI
    if t < 1 then .ok st
    else
      let adjtime : ℚ := (t : ℚ) + st.dps * ((t : ℚ) - (st.start : ℚ))
      let localtime : ℚ := adjtime - 3600 * (timezone_offset : ℚ)
      let atime := time_to_string ⌊adjtime⌋
      let base := (getEntry st.data atime).getD emptyReading
      let base := setF base .time (some (time_to_string t))
      let base := setF base .localtime (some (time_to_string ⌊localtime⌋))
      storeFields st row base atime

/-- One line of the file: data handling once `in_data`, else the header
patterns. -/
def processLine (st : PState) (line : String) : Except Err PState :=
  if st.in_data then processDataLine st line else processHeaderLine st line

/-- The line loop of `read_data_file`. -/
def runLines : PState → List String → Except Err PState
  | st, [] => .ok st
  | st, line :: rest =>
    match processLine st line with
    | .error e => .error e
    | .ok st2 => runLines st2 rest

/-- `read_data_file`, given the (already newline-stripped) lines of one
file.  I/O failure is handled outside this loop (an unreadable file
contributes an empty line list, hence an empty timeline); every `Err`
escapes uncaught. -/
def read_data_file (lines : List String) : Except Err Timeline :=
  match runLines initPState lines with
  | .error e => .error e
  | .ok final => .ok final.data

/-! ## Merger: fold the per-file timelines into one output dict -/

/-- The eleven output fields, in the merge loop's list order. -/
def mergeFieldOrder : List FieldKind :=
  [.time, .localtime, .temp, .wets, .light, .wetdry, .duration,
   .wet_temp_min, .wet_temp_max, .wet_temp_mean, .wet_temp_samples]

/-- One field of the per-key merge body: copy the incoming value when
the incoming reading has the key, else store an explicit `None` when
the output does not have the key yet. -/
def mergeStep (incoming acc : Reading) (f : FieldKind) : Reading :=
  match incoming f with
  | some v => setF acc f v
  | none =>
    match acc f with
    | none => setF acc f none
    | some _ => acc

/-- The per-key merge body over the eleven fields. -/
def mergeReading (existing incoming : Reading) : Reading :=
  mergeFieldOrder.foldl (mergeStep incoming) existing

/-- Merge one file's timeline into the accumulated output (`output[date]
= {}` first when the key is new). -/
def mergeInto (output : Timeline) (tl : Timeline) : Timeline :=
  tl.foldl (fun out p =>
    let existing := (getEntry out p.1).getD emptyReading
    putEntry out p.1 (mergeReading existing p.2)) output

/-- The whole merge loop over the files, in enumeration order. -/
def mergeTimelines (tls : List Timeline) : Timeline := tls.foldl mergeInto []

/-! ## Interpolator: descending walk with two rolling state slots -/

/-- The `state` dict: the wet-temperature group is present only after a
reading defined `wet_temp_min`; the dry pair is present only after a
reading defined `wetdry`.  A captured component other than the guard
may itself be `None`. -/
structure InterpState where
  wet : Option (String × Option String × Option String × Option String)
  dry : Option (String × Option String)
deriving DecidableEq

def initInterp : InterpState := ⟨none, none⟩

/-- `values[f]`: dict access that raises `KeyError` when absent. -/
def reqField (r : Reading) (f : FieldKind) : Except Err (Option String) :=
  match r f with
  | some v => .ok v
  | none => .error .keyError

/-- Lines 350-354: capture the four wet-temperature values when
`wet_temp_min` is present and non-`None`. -/
def wetCapture (st : InterpState) (r : Reading) : Except Err InterpState :=
  match r .wet_temp_min with
  | some (some v) =>
    match reqField r .wet_temp_max, reqField r .wet_temp_mean,
        reqField r .wet_temp_samples with
    | .ok mx, .ok mean, .ok samples =>
      .ok { st with wet := some (v, mx, mean, samples) }
    | .error e, _, _ => .error e
    | _, .error e, _ => .error e
    | _, _, .error e => .error e
  | _ => .ok st

/-- Lines 360-364: when the wet state is set, overwrite the four
wet-temperature fields of the current reading. -/
def wetFill (st : InterpState) (r : Reading) : Reading :=
  match st.wet with
  | some (v, mx, mean, samples) =>
    setF (setF (setF (setF r .wet_temp_min (some v)) .wet_temp_max mx)
      .wet_temp_mean mean) .wet_temp_samples samples
  | none => r

/-- Lines 369-371: capture `wetdry` and `duration` when `wetdry` is
present and non-`None`. -/
def dryCapture (st : InterpState) (r : Reading) : Except Err InterpState :=
  match r .wetdry with
  | some (some v) =>
    match reqField r .duration with
    | .ok d => .ok { st with dry := some (v, d) }
    | .error e => .error e
  | _ => .ok st

/-- Lines 373-374: when the dry state is set, overwrite `wetdry` of the
current reading (`duration` is not written back). -/
def dryFill (st : InterpState) (r : Reading) : Reading :=
  match st.dry with
  | some (w, _) => setF r .wetdry (some w)
  | none => r

/-- One iteration of the interpolation loop body. -/
def interpStep (st : InterpState) (r : Reading) : Except Err (InterpState × Reading) :=
  match wetCapture st r with
  | .error e => .error e
  | .ok st1 =>
    let r1 := wetFill st1 r
    match dryCapture st1 r1 with
    | .error e => .error e
    | .ok st2 => .ok (st2, dryFill st2 r1)

/-- The interpolation loop over the (descending-ordered) entries. -/
def interpGo : InterpState → Timeline → Except Err Timeline
  | _, [] => .ok []
  | st, (k, r) :: rest =>
    match interpStep st r with
    | .error e => .error e
    | .ok sr =>
      match interpGo sr.1 rest with
      | .error e => .error e
      | .ok rest2 => .ok ((k, sr.2) :: rest2)

/-- `sorted(output.keys(), reverse=True)` then re-indexing the dict:
with unique keys this is sorting the entries by key, descending. -/
def sortDesc (tl : Timeline) : Timeline :=
  List.insertionSort (fun a b : String × Reading => b.1 ≤ a.1) tl

/-- `sorted(temp.keys())` then re-indexing: entries by key, ascending. -/
def sortAsc (tl : Timeline) : Timeline :=
  List.insertionSort (fun a b : String × Reading => a.1 ≤ b.1) tl

/-- The whole interpolation stage: reverse-sort, walk, re-sort
ascending for the final output order. -/
def interpolate (tl : Timeline) : Except Err Timeline :=
  match interpGo initInterp (sortDesc tl) with
  | .error e => .error e
  | .ok t => .ok (sortAsc t)

/-- Parse every file, in enumeration order; the first uncaught `Err`
aborts the whole run. -/
def parseAll : List (List String) → Except Err (List Timeline)
  | [] => .ok []
  | ls :: rest =>
    match read_data_file ls with
    | .error e => .error e
    | .ok tl =>
      match parseAll rest with
      | .error e => .error e
      | .ok tls => .ok (tl :: tls)

/-- The program after file enumeration: parse every file, merge,
interpolate.  The resulting timeline is emitted row by row in order. -/
def runPipeline (files : List (List String)) : Except Err Timeline :=
  match parseAll files with
  | .error e => .error e
  | .ok tls => interpolate (mergeTimelines tls)

instance : IsTotal (String × Reading) (fun a b => a.1 ≤ b.1) :=
  ⟨fun a b => le_total a.1 b.1⟩

instance : IsTrans (String × Reading) (fun a b => a.1 ≤ b.1) :=
  ⟨fun _ _ _ h1 h2 => le_trans h1 h2⟩

instance : IsTotal (String × Reading) (fun a b => b.1 ≤ a.1) :=
  ⟨fun a b => le_total b.1 a.1⟩

instance : IsTrans (String × Reading) (fun a b => b.1 ≤ a.1) :=
  ⟨fun _ _ _ h1 h2 => le_trans h2 h1⟩

/-! ## Concrete instances used to exercise the definitions -/

/-- A reading defining every field with the string value `x`. -/
def rAllX : Reading := fun _ => some (some "x")

/-- Two files sharing one reading shape, keys out of order. -/
def tlsC9 : List Timeline := [[("2", rAllX), ("1", rAllX)]]

def outC9 : Timeline := [("1", rAllX), ("2", rAllX)]

/-- A merged-style reading that defines `wetdry` and `duration` and
holds `None` everywhere else. -/
def rWd : Reading := fun f =>
  match f with
  | .wetdry => some (some "wet")
  | .duration => some (some "30")
  | _ => some none

/-- A merged-style reading holding `None` in every field. -/
def rNullC : Reading := fun _ => some none

def tlC1 : Timeline := [("2", rWd), ("1", rNullC)]

/-- `rNullC` after inheriting the dry state's `wetdry` (but not its
`duration`). -/
def r1C1 : Reading := fun f =>
  match f with
  | .wetdry => some (some "wet")
  | _ => some none

def outC1 : Timeline := [("1", r1C1), ("2", rWd)]

/-- The state-and-reading pair produced by one interpolation step on
`rWd` from the initial state. -/
def srWd : InterpState × Reading := (⟨none, some ("wet", some "30")⟩, rWd)

/-- A data line whose raw time is epoch second 1. -/
def lineC2 : String := "01/01/1970 00:00:01\t5"

/-- A parser state mid-file: drift 3 s over a 4 s window, so
`dps = 3/4`, reading a temperature file. -/
def stC2 : PState :=
  { start := 0, end_ := 4, drift := 3, dps := 3/4,
    field := some FieldKind.temp, in_data := true, data := [] }

def readingC2 : Reading := fun f =>
  match f with
  | .time => some (some "1970-01-01 00:00:01")
  | .localtime => some (some "1969-12-31 20:00:01")
  | .temp => some (some "5")
  | _ => none

/-- Newest reading of the five-reading scenario: defines `wetdry`. -/
def rC3A : Reading := fun f =>
  match f with
  | .wetdry => some (some "A")
  | .duration => some (some "10")
  | _ => some none

/-- Fourth reading of the five-reading scenario: defines `wetdry`. -/
def rC3B : Reading := fun f =>
  match f with
  | .wetdry => some (some "B")
  | .duration => some (some "20")
  | _ => some none

/-- A reading with `wetdry` explicitly `None`. -/
def rC3N : Reading := fun _ => some none

/-- Five readings in descending time order; only the 1st and 4th
define `wetdry`. -/
def tlC3 : Timeline :=
  [("5", rC3A), ("4", rC3N), ("3", rC3N), ("2", rC3B), ("1", rC3N)]

def rC3NA : Reading := fun f =>
  match f with
  | .wetdry => some (some "A")
  | _ => some none

def rC3NB : Reading := fun f =>
  match f with
  | .wetdry => some (some "B")
  | _ => some none

def outC3 : Timeline :=
  [("1", rC3NB), ("2", rC3B), ("3", rC3NA), ("4", rC3NA), ("5", rC3A)]

/-! ### Calendar lemmas for the round trip -/

theorem isLeap_iff (y : Nat) :
    isLeap y = true ↔ (y % 4 = 0 ∧ y % 100 ≠ 0) ∨ y % 400 = 0 := by
  simp [isLeap]

theorem daysBeforeYear_succ (y : Nat) (hy : 1 ≤ y) :
    daysBeforeYear (y + 1) = daysBeforeYear y + daysInYear y := by
  have hstep : ∀ hL : Bool, isLeap y = hL →
      daysBeforeYear (y + 1) = daysBeforeYear y + if hL then 366 else 365 := by
    intro hL hLeq
    obtain ⟨n, rfl⟩ : ∃ n, y = n + 1 := ⟨y - 1, by omega⟩
    have hiff := isLeap_iff (n + 1)
    rw [hLeq] at hiff
    unfold daysBeforeYear
    simp only [Nat.add_sub_cancel]
    rw [Nat.succ_div n 4, Nat.succ_div n 100, Nat.succ_div n 400]
    cases hL
    · have hn : ¬ (((n + 1) % 4 = 0 ∧ (n + 1) % 100 ≠ 0) ∨ (n + 1) % 400 = 0) := by
        rw [← hiff]; simp
      by_cases h4 : 4 ∣ (n + 1) <;> by_cases h100 : 100 ∣ (n + 1) <;>
        by_cases h400 : 400 ∣ (n + 1) <;>
        simp [h4, h100, h400] <;> omega
    · have hp : ((n + 1) % 4 = 0 ∧ (n + 1) % 100 ≠ 0) ∨ (n + 1) % 400 = 0 := by
        rw [← hiff]
      by_cases h4 : 4 ∣ (n + 1) <;> by_cases h100 : 100 ∣ (n + 1) <;>
        by_cases h400 : 400 ∣ (n + 1) <;>
        simp [h4, h100, h400] <;> omega
  rw [daysInYear, hstep (isLeap y) rfl]

theorem daysBeforeYear_mono {a b : Nat} (ha : 1 ≤ a) (h : a ≤ b) :
    daysBeforeYear a ≤ daysBeforeYear b := by
  induction b, h using Nat.le_induction with
  | base => exact le_refl _
  | succ n hn ih =>
    calc daysBeforeYear a ≤ daysBeforeYear n := ih
      _ ≤ daysBeforeYear (n + 1) := by rw [daysBeforeYear_succ n (by omega)]; omega

theorem sub_one_le_daysBeforeYear (y : Nat) : y - 1 ≤ daysBeforeYear y := by
  unfold daysBeforeYear; omega

theorem findYear_spec :
    ∀ (k base fuel r : Nat), 1 ≤ base → r < daysInYear (base + k) → k < fuel →
      findYear fuel (daysBeforeYear (base + k) - daysBeforeYear base + r) base =
        (base + k, r) := by
  intro k
  induction k with
  | zero =>
    intro base fuel r _ hr hf
    match fuel, hf with
    | f + 1, _ =>
      simp only [Nat.add_zero] at hr ⊢
      simp [findYear, hr]
  | succ k ih =>
    intro base fuel r hbase hr hf
    match fuel, hf with
    | f + 1, hf =>
      have hsucc : daysBeforeYear (base + 1) = daysBeforeYear base + daysInYear base :=
        daysBeforeYear_succ base hbase
      have hmono : daysBeforeYear (base + 1) ≤ daysBeforeYear (base + (k + 1)) :=
        daysBeforeYear_mono (by omega) (by omega)
      have harg : daysBeforeYear (base + (k + 1)) - daysBeforeYear base + r =
          daysInYear base +
            (daysBeforeYear ((base + 1) + k) - daysBeforeYear (base + 1) + r) := by
        have : (base + 1) + k = base + (k + 1) := by omega
        rw [this]; omega
      rw [harg]
      have hcond : ¬ (daysInYear base +
          (daysBeforeYear ((base + 1) + k) - daysBeforeYear (base + 1) + r) <
            daysInYear base) := by omega
      simp only [findYear, hcond, if_false]
      have hrec := ih (base + 1) f r (by omega) (by
        have : (base + 1) + k = base + (k + 1) := by omega
        rw [this]; exact hr) (by omega)
      have hd : daysInYear base +
            (daysBeforeYear ((base + 1) + k) - daysBeforeYear (base + 1) + r) -
            daysInYear base =
          daysBeforeYear ((base + 1) + k) - daysBeforeYear (base + 1) + r := by omega
      rw [hd, hrec]
      have : (base + 1) + k = base + (k + 1) := by omega
      rw [this]

theorem findMonthAux_spec (y : Nat) :
    ∀ (k m0 fuel r : Nat), r < daysInMonth y (m0 + k) → k < fuel →
      findMonthAux fuel y m0 (sumMonths y m0 k + r) = (m0 + k, r) := by
  intro k
  induction k with
  | zero =>
    intro m0 fuel r hr hf
    match fuel, hf with
    | f + 1, _ =>
      simp only [Nat.add_zero] at hr ⊢
      simp [findMonthAux, sumMonths, hr]
  | succ k ih =>
    intro m0 fuel r hr hf
    match fuel, hf with
    | f + 1, hf =>
      have harg : sumMonths y m0 (k + 1) + r =
          daysInMonth y m0 + (sumMonths y (m0 + 1) k + r) := by
        simp only [sumMonths]; omega
      rw [harg]
      have hcond : ¬ (daysInMonth y m0 + (sumMonths y (m0 + 1) k + r) <
          daysInMonth y m0) := by omega
      simp only [findMonthAux, hcond, if_false]
      have hd : daysInMonth y m0 + (sumMonths y (m0 + 1) k + r) - daysInMonth y m0 =
          sumMonths y (m0 + 1) k + r := by omega
      rw [hd]
      have hrec := ih (m0 + 1) f r (by
        have : (m0 + 1) + k = m0 + (k + 1) := by omega
        rw [this]; exact hr) (by omega)
      rw [hrec]
      have : (m0 + 1) + k = m0 + (k + 1) := by omega
      rw [this]

theorem daysBeforeMonth_add_le (y m : Nat) (h1 : 1 ≤ m) (h2 : m ≤ 12) :
    daysBeforeMonth y m + daysInMonth y m ≤ daysInYear y := by
  interval_cases m <;>
    cases h : isLeap y <;>
      simp [daysBeforeMonth, sumMonths, daysInMonth, daysInYear, h]

/-- `validCivil` unpacked into arithmetic facts. -/
theorem validCivil_iff (c : Civil) : validCivil c = true ↔
    (1 ≤ c.year ∧ c.year ≤ 9999 ∧ 1 ≤ c.month ∧ c.month ≤ 12 ∧
     1 ≤ c.day ∧ c.day ≤ daysInMonth c.year c.month ∧
     c.hour ≤ 23 ∧ c.minute ≤ 59 ∧ c.second ≤ 59) := by
  simp only [validCivil, Bool.and_eq_true, decide_eq_true_eq]
  tauto

theorem fromDays_daysSinceY1 (c : Civil) (h : validCivil c = true) :
    fromDays (daysSinceY1 c) = (c.year, c.month, c.day) := by
  obtain ⟨hy1, _, hm1, hm12, hd1, hdm, _, _, _⟩ := (validCivil_iff c).mp h
  have hr : daysBeforeMonth c.year c.month + (c.day - 1) < daysInYear c.year := by
    have := daysBeforeMonth_add_le c.year c.month hm1 hm12
    omega
  have hD : daysSinceY1 c =
      daysBeforeYear c.year - daysBeforeYear 1 +
        (daysBeforeMonth c.year c.month + (c.day - 1)) := by
    have h1 : daysBeforeYear 1 = 0 := by simp [daysBeforeYear]
    simp [daysSinceY1, h1, Nat.add_assoc]
  have hyk : 1 + (c.year - 1) = c.year := by omega
  have hfuel : c.year - 1 < daysSinceY1 c + 1 := by
    have := sub_one_le_daysBeforeYear c.year
    simp only [daysSinceY1]
    omega
  have hyear := findYear_spec (c.year - 1) 1 (daysSinceY1 c + 1)
    (daysBeforeMonth c.year c.month + (c.day - 1)) (by omega)
    (by rw [hyk]; exact hr) hfuel
  rw [hyk] at hyear
  rw [← hD] at hyear
  have hmk : 1 + (c.month - 1) = c.month := by omega
  have hmonth := findMonthAux_spec c.year (c.month - 1) 1 12 (c.day - 1)
    (by rw [hmk]; omega) (by omega)
  rw [hmk] at hmonth
  have hbm : sumMonths c.year 1 (c.month - 1) = daysBeforeMonth c.year c.month := rfl
  rw [hbm] at hmonth
  simp only [fromDays, hyear, hmonth]
  have : c.day - 1 + 1 = c.day := by omega
  rw [this]

/-- Core of the round trip: formatting the epoch value of a valid civil
date-time reproduces that date-time in display form. -/
theorem time_to_string_mktime (c : Civil) (h : validCivil c = true) :
    time_to_string (mktime c) = renderDisplay c := by
  obtain ⟨hy1, _, hm1, hm12, hd1, hdm, hh, hmi, hs⟩ := (validCivil_iff c).mp h
  have htotal : (mktime c + (epoch1970days : Int) * 86400).toNat =
      daysSinceY1 c * 86400 + (c.hour * 3600 + c.minute * 60 + c.second) := by
    unfold mktime; omega
  have htod : c.hour * 3600 + c.minute * 60 + c.second < 86400 := by omega
  have hdays : (daysSinceY1 c * 86400 + (c.hour * 3600 + c.minute * 60 + c.second)) / 86400 =
      daysSinceY1 c := by omega
  have hmod : (daysSinceY1 c * 86400 + (c.hour * 3600 + c.minute * 60 + c.second)) % 86400 =
      c.hour * 3600 + c.minute * 60 + c.second := by omega
  have hhh : (c.hour * 3600 + c.minute * 60 + c.second) / 3600 = c.hour := by omega
  have hmm : (c.hour * 3600 + c.minute * 60 + c.second) % 3600 / 60 = c.minute := by omega
  have hss : (c.hour * 3600 + c.minute * 60 + c.second) % 60 = c.second := by omega
  simp only [time_to_string, htotal, hdays, hmod, formatDaysTod,
    fromDays_daysSinceY1 c h, hhh, hmm, hss, renderDisplay]

/-! ### Association-list lemmas -/

theorem mem_putEntry {tl : Timeline} {k : String} {r : Reading} {p : String × Reading}
    (h : p ∈ putEntry tl k r) : p = (k, r) ∨ p ∈ tl := by
  induction tl with
  | nil => simpa [putEntry] using h
  | cons q rest ih =>
    rcases q with ⟨k', r'⟩
    by_cases hk : k' = k
    · rw [putEntry, if_pos hk] at h
      rcases List.mem_cons.mp h with h | h
      · exact Or.inl h
      · exact Or.inr (List.mem_cons_of_mem _ h)
    · rw [putEntry, if_neg hk] at h
      rcases List.mem_cons.mp h with h | h
      · exact Or.inr (h ▸ List.mem_cons_self _ _)
      · rcases ih h with h2 | h2
        · exact Or.inl h2
        · exact Or.inr (List.mem_cons_of_mem _ h2)

theorem keys_putEntry (tl : Timeline) (k : String) (r : Reading) :
    (putEntry tl k r).map Prod.fst =
      if k ∈ tl.map Prod.fst then tl.map Prod.fst else tl.map Prod.fst ++ [k] := by
  induction tl with
  | nil => simp [putEntry]
  | cons q rest ih =>
    rcases q with ⟨k', r'⟩
    by_cases hk : k' = k
    · rw [putEntry, if_pos hk]
      simp [hk]
    · rw [putEntry, if_neg hk]
      by_cases hmem : k ∈ rest.map Prod.fst
      · simp only [List.map_cons, ih, hmem, if_true]
        have : k ∈ k' :: rest.map Prod.fst := List.mem_cons_of_mem _ hmem
        simp [this, Ne.symm hk]
      · simp only [List.map_cons, ih, hmem, if_false]
        have : ¬ k ∈ k' :: rest.map Prod.fst := by
          intro hc
          rcases List.mem_cons.mp hc with hc | hc
          · exact hk hc.symm
          · exact hmem hc
        simp [this]

theorem mem_keys_putEntry {tl : Timeline} {k : String} {r : Reading} (x : String) :
    x ∈ (putEntry tl k r).map Prod.fst ↔ x ∈ tl.map Prod.fst ∨ x = k := by
  rw [keys_putEntry]
  by_cases hk : k ∈ tl.map Prod.fst
  · rw [if_pos hk]
    constructor
    · exact Or.inl
    · rintro (h | rfl)
      · exact h
      · exact hk
  · rw [if_neg hk]
    simp

theorem nodup_keys_putEntry {tl : Timeline} {k : String} {r : Reading}
    (h : (tl.map Prod.fst).Nodup) : ((putEntry tl k r).map Prod.fst).Nodup := by
  rw [keys_putEntry]
  by_cases hk : k ∈ tl.map Prod.fst
  · rwa [if_pos hk]
  · rw [if_neg hk]
    simp [List.nodup_append, h, hk]

/-! ### Merge lemmas -/

theorem mergeStep_apply_ne (inc acc : Reading) {f g : FieldKind} (h : f ≠ g) :
    mergeStep inc acc g f = acc f := by
  unfold mergeStep
  cases inc g with
  | some v => simp [setF, Function.update_noteq h]
  | none =>
    cases acc g with
    | none => simp [setF, Function.update_noteq h]
    | some w => rfl

theorem mergeStep_apply_self (inc acc : Reading) (f : FieldKind) :
    mergeStep inc acc f f = some ((inc f).getD ((acc f).getD none)) := by
  unfold mergeStep
  cases inc f with
  | some v => simp [setF, Function.update_same]
  | none =>
    cases h2 : acc f with
    | none => simp [setF, Function.update_same]
    | some w => simp [h2]

theorem mergeFold_frame (inc : Reading) :
    ∀ (L : List FieldKind) (acc : Reading) (f : FieldKind), f ∉ L →
      (L.foldl (mergeStep inc) acc) f = acc f := by
  intro L
  induction L with
  | nil => intro acc f _; rfl
  | cons g L ih =>
    intro acc f hf
    have hfg : f ≠ g := fun he => hf (he ▸ List.mem_cons_self _ _)
    have hfL : f ∉ L := fun hm => hf (List.mem_cons_of_mem _ hm)
    simp only [List.foldl_cons]
    rw [ih _ f hfL, mergeStep_apply_ne inc acc hfg]

theorem mergeFold_apply (inc : Reading) :
    ∀ (L : List FieldKind) (acc : Reading) (f : FieldKind), f ∈ L → L.Nodup →
      (L.foldl (mergeStep inc) acc) f = some ((inc f).getD ((acc f).getD none)) := by
  intro L
  induction L with
  | nil => intro acc f hf _; cases hf
  | cons g L ih =>
    intro acc f hf hnd
    simp only [List.foldl_cons]
    rcases List.mem_cons.mp hf with rfl | hfL
    · have hgL : f ∉ L := (List.nodup_cons.mp hnd).1
      rw [mergeFold_frame inc L _ f hgL, mergeStep_apply_self]
    · by_cases hfg : f = g
      · subst hfg
        have hgL : f ∉ L := (List.nodup_cons.mp hnd).1
        exact absurd hfL hgL
      · rw [ih _ f hfL (List.nodup_cons.mp hnd).2, mergeStep_apply_ne inc acc hfg]

theorem mem_mergeFieldOrder (f : FieldKind) : f ∈ mergeFieldOrder := by
  cases f <;> simp [mergeFieldOrder]

theorem nodup_mergeFieldOrder : mergeFieldOrder.Nodup := by decide

/-- Closed form of the merge body: the incoming value wins when the
incoming dict has the key, else the existing value survives, else an
explicit `None` is stored; in particular every field ends up present. -/
theorem mergeReading_apply (existing incoming : Reading) (f : FieldKind) :
    mergeReading existing incoming f =
      some ((incoming f).getD ((existing f).getD none)) :=
  mergeFold_apply incoming mergeFieldOrder existing f (mem_mergeFieldOrder f)
    nodup_mergeFieldOrder

theorem mergeReading_complete (existing incoming : Reading) (f : FieldKind) :
    mergeReading existing incoming f ≠ none := by
  rw [mergeReading_apply]; simp

theorem mergeInto_complete {output : Timeline} {tl : Timeline}
    (h : ∀ p ∈ output, ∀ f, p.2 f ≠ none) :
    ∀ p ∈ mergeInto output tl, ∀ f, p.2 f ≠ none := by
  induction tl generalizing output with
  | nil => exact h
  | cons q rest ih =>
    simp only [mergeInto, List.foldl_cons]
    refine ih (fun p hp f => ?_)
    rcases mem_putEntry hp with rfl | hp2
    · exact mergeReading_complete _ _ f
    · exact h p hp2 f

theorem mergeTimelines_complete (tls : List Timeline) :
    ∀ p ∈ mergeTimelines tls, ∀ f, p.2 f ≠ none := by
  have hgen : ∀ (ts : List Timeline) (out : Timeline),
      (∀ p ∈ out, ∀ f, p.2 f ≠ none) →
      ∀ p ∈ ts.foldl mergeInto out, ∀ f, p.2 f ≠ none := by
    intro ts
    induction ts with
    | nil => intro out h; exact h
    | cons t rest ih =>
      intro out h
      simp only [List.foldl_cons]
      exact ih _ (mergeInto_complete h)
  exact hgen tls [] (by intro p hp; cases hp)

theorem mem_keys_mergeInto {output tl : Timeline} (k : String) :
    k ∈ (mergeInto output tl).map Prod.fst ↔
      k ∈ output.map Prod.fst ∨ k ∈ tl.map Prod.fst := by
  induction tl generalizing output with
  | nil => simp [mergeInto]
  | cons q rest ih =>
    simp only [mergeInto, List.foldl_cons] at ih ⊢
    rw [ih, mem_keys_putEntry]
    simp only [List.map_cons, List.mem_cons]
    tauto

theorem nodup_keys_mergeInto {output tl : Timeline}
    (h : (output.map Prod.fst).Nodup) :
    ((mergeInto output tl).map Prod.fst).Nodup := by
  induction tl generalizing output with
  | nil => exact h
  | cons q rest ih =>
    simp only [mergeInto, List.foldl_cons] at ih ⊢
    exact ih (nodup_keys_putEntry h)

theorem mem_keys_mergeTimelines (tls : List Timeline) (k : String) :
    k ∈ (mergeTimelines tls).map Prod.fst ↔
      ∃ tl ∈ tls, k ∈ tl.map Prod.fst := by
  have hgen : ∀ (ts : List Timeline) (out : Timeline),
      k ∈ (ts.foldl mergeInto out).map Prod.fst ↔
        k ∈ out.map Prod.fst ∨ ∃ tl ∈ ts, k ∈ tl.map Prod.fst := by
    intro ts
    induction ts with
    | nil => intro out; simp
    | cons t rest ih =>
      intro out
      simp only [List.foldl_cons]
      rw [ih, mem_keys_mergeInto]
      simp only [List.mem_cons]
      constructor
      · rintro ((h | h) | ⟨tl, htl, hk⟩)
        · exact Or.inl h
        · exact Or.inr ⟨t, Or.inl rfl, h⟩
        · exact Or.inr ⟨tl, Or.inr htl, hk⟩
      · rintro (h | ⟨tl, (rfl | htl), hk⟩)
        · exact Or.inl (Or.inl h)
        · exact Or.inl (Or.inr hk)
        · exact Or.inr ⟨tl, htl, hk⟩
  rw [mergeTimelines, hgen]
  simp

theorem nodup_keys_mergeTimelines (tls : List Timeline) :
    ((mergeTimelines tls).map Prod.fst).Nodup := by
  have hgen : ∀ (ts : List Timeline) (out : Timeline),
      (out.map Prod.fst).Nodup → ((ts.foldl mergeInto out).map Prod.fst).Nodup := by
    intro ts
    induction ts with
    | nil => intro out h; exact h
    | cons t rest ih =>
      intro out h
      simp only [List.foldl_cons]
      exact ih _ (nodup_keys_mergeInto h)
  exact hgen tls [] (by simp)

/-! ### Interpolation lemmas -/

theorem reqField_ok {r : Reading} {f : FieldKind} {v : Option String} :
    reqField r f = .ok v ↔ r f = some v := by
  unfold reqField
  cases h : r f <;> simp

theorem wetCapture_dry {st : InterpState} {r : Reading} {st1 : InterpState}
    (h : wetCapture st r = .ok st1) : st1.dry = st.dry := by
  unfold wetCapture at h
  split at h
  · split at h
    · cases h; rfl
    · cases h
    · cases h
    · cases h
  · cases h; rfl

theorem wetCapture_ok {st : InterpState} {r : Reading} (h : ∀ f, r f ≠ none) :
    ∃ st1, wetCapture st r = .ok st1 := by
  unfold wetCapture
  cases hv : r .wet_temp_min with
  | none => exact absurd hv (h _)
  | some o =>
    cases o with
    | none => exact ⟨st, rfl⟩
    | some v =>
      obtain ⟨mx, hmx⟩ := Option.ne_none_iff_exists'.mp (h FieldKind.wet_temp_max)
      obtain ⟨mean, hmean⟩ := Option.ne_none_iff_exists'.mp (h FieldKind.wet_temp_mean)
      obtain ⟨samples, hsamples⟩ :=
        Option.ne_none_iff_exists'.mp (h FieldKind.wet_temp_samples)
      rw [reqField_ok.mpr hmx, reqField_ok.mpr hmean, reqField_ok.mpr hsamples]
      exact ⟨_, rfl⟩

theorem dryCapture_of_val {st : InterpState} {r : Reading} {st2 : InterpState} {v : String}
    (hwd : r FieldKind.wetdry = some (some v)) (h : dryCapture st r = .ok st2) :
    ∃ d, r FieldKind.duration = some d ∧ st2.dry = some (v, d) ∧ st2.wet = st.wet := by
  unfold dryCapture at h
  rw [hwd] at h
  cases hdur : reqField r .duration with
  | error e => rw [hdur] at h; cases h
  | ok d =>
    rw [hdur] at h
    cases h
    exact ⟨d, reqField_ok.mp hdur, rfl, rfl⟩

theorem dryCapture_of_skip {st : InterpState} {r : Reading} {st2 : InterpState}
    (hwd : ∀ v, r FieldKind.wetdry ≠ some (some v)) (h : dryCapture st r = .ok st2) :
    st2 = st := by
  unfold dryCapture at h
  cases hv : r .wetdry with
  | none => rw [hv] at h; cases h; rfl
  | some o =>
    cases o with
    | none => rw [hv] at h; cases h; rfl
    | some v => exact (hwd v hv).elim

theorem dryCapture_ok {st : InterpState} {r : Reading} (h : ∀ f, r f ≠ none) :
    ∃ st2, dryCapture st r = .ok st2 := by
  unfold dryCapture
  cases hv : r .wetdry with
  | none => exact absurd hv (h _)
  | some o =>
    cases o with
    | none => exact ⟨st, rfl⟩
    | some v =>
      obtain ⟨d, hd⟩ := Option.ne_none_iff_exists'.mp (h FieldKind.duration)
      rw [reqField_ok.mpr hd]
      exact ⟨_, rfl⟩

theorem wetFill_frame (st : InterpState) (r : Reading) (f : FieldKind)
    (h1 : f ≠ .wet_temp_min) (h2 : f ≠ .wet_temp_max) (h3 : f ≠ .wet_temp_mean)
    (h4 : f ≠ .wet_temp_samples) : wetFill st r f = r f := by
  unfold wetFill
  cases hw : st.wet with
  | none => rfl
  | some q =>
    rcases q with ⟨v, mx, mean, samples⟩
    simp only [setF]
    rw [Function.update_noteq h4, Function.update_noteq h3,
      Function.update_noteq h2, Function.update_noteq h1]

theorem wetFill_complete {st : InterpState} {r : Reading} (h : ∀ f, r f ≠ none) :
    ∀ f, wetFill st r f ≠ none := by
  intro f
  unfold wetFill
  cases hw : st.wet with
  | none => exact h f
  | some q =>
    rcases q with ⟨v, mx, mean, samples⟩
    cases f <;> simp [setF, Function.update] <;> exact h _

theorem dryFill_frame (st : InterpState) (r : Reading) (f : FieldKind)
    (h1 : f ≠ .wetdry) : dryFill st r f = r f := by
  unfold dryFill
  cases hd : st.dry with
  | none => rfl
  | some q =>
    rcases q with ⟨w, d⟩
    simp only [setF]
    rw [Function.update_noteq h1]

theorem dryFill_of_set {st : InterpState} {r : Reading} {w : String} {d : Option String}
    (h : st.dry = some (w, d)) : dryFill st r FieldKind.wetdry = some (some w) := by
  unfold dryFill
  rw [h]
  simp [setF, Function.update_same]

theorem dryFill_of_unset {st : InterpState} {r : Reading} (h : st.dry = none) :
    dryFill st r = r := by
  unfold dryFill
  rw [h]

/-- The six fields the interpolation loop never writes. -/
theorem interpStep_frame {st : InterpState} {r : Reading} {sr : InterpState × Reading}
    (h : interpStep st r = .ok sr) (f : FieldKind)
    (hf : f ≠ .wetdry ∧ f ≠ .wet_temp_min ∧ f ≠ .wet_temp_max ∧
      f ≠ .wet_temp_mean ∧ f ≠ .wet_temp_samples) :
    sr.2 f = r f := by
  obtain ⟨hf1, hf2, hf3, hf4, hf5⟩ := hf
  unfold interpStep at h
  cases hw : wetCapture st r with
  | error e => simp only [hw] at h; cases h
  | ok st1 =>
    simp only [hw] at h
    cases hd : dryCapture st1 (wetFill st1 r) with
    | error e => simp only [hd] at h; cases h
    | ok st2 =>
      simp only [hd] at h
      cases h
      show dryFill st2 (wetFill st1 r) f = r f
      rw [dryFill_frame _ _ _ hf1, wetFill_frame _ _ _ hf2 hf3 hf4 hf5]

theorem interpStep_ok {st : InterpState} {r : Reading} (h : ∀ f, r f ≠ none) :
    ∃ sr, interpStep st r = .ok sr := by
  obtain ⟨st1, hw⟩ := @wetCapture_ok st _ h
  obtain ⟨st2, hd⟩ := @dryCapture_ok st1 _ (@wetFill_complete st1 _ h)
  refine ⟨(st2, dryFill st2 (wetFill st1 r)), ?_⟩
  unfold interpStep
  simp only [hw, hd]

/-- Dry-state bookkeeping of one loop iteration, when the current
reading defines `wetdry`: the state captures the `wetdry` value
together with the reading's `duration`, and the reading's `wetdry` is
(redundantly) overwritten with the captured value. -/
theorem interpStep_dry_of_val {st : InterpState} {r : Reading}
    {sr : InterpState × Reading} {v : String}
    (h : interpStep st r = .ok sr) (hwd : r FieldKind.wetdry = some (some v)) :
    ∃ d, r FieldKind.duration = some d ∧ sr.1.dry = some (v, d) ∧
      sr.2 FieldKind.wetdry = some (some v) := by
  unfold interpStep at h
  cases hw : wetCapture st r with
  | error e => simp only [hw] at h; cases h
  | ok st1 =>
    simp only [hw] at h
    cases hd : dryCapture st1 (wetFill st1 r) with
    | error e => simp only [hd] at h; cases h
    | ok st2 =>
      simp only [hd] at h
      cases h
      have hwd1 : wetFill st1 r FieldKind.wetdry = some (some v) := by
        rw [wetFill_frame _ _ _ (by decide) (by decide) (by decide) (by decide)]
        exact hwd
      obtain ⟨d, hdur, hdry, _⟩ := dryCapture_of_val hwd1 hd
      have hdur0 : r FieldKind.duration = some d := by
        rw [← wetFill_frame st1 r FieldKind.duration
          (by decide) (by decide) (by decide) (by decide)]
        exact hdur
      exact ⟨d, hdur0, hdry, dryFill_of_set hdry⟩

/-- Dry-state bookkeeping of one loop iteration, when the current
reading does not define `wetdry`: the state is unchanged, and the
reading's `wetdry` is overwritten exactly when the state is set. -/
theorem interpStep_dry_of_skip {st : InterpState} {r : Reading}
    {sr : InterpState × Reading}
    (h : interpStep st r = .ok sr) (hwd : ∀ v, r FieldKind.wetdry ≠ some (some v)) :
    sr.1.dry = st.dry ∧
      (st.dry = none → sr.2 FieldKind.wetdry = r FieldKind.wetdry) ∧
      (∀ w d, st.dry = some (w, d) → sr.2 FieldKind.wetdry = some (some w)) := by
  unfold interpStep at h
  cases hw : wetCapture st r with
  | error e => simp only [hw] at h; cases h
  | ok st1 =>
    simp only [hw] at h
    cases hd : dryCapture st1 (wetFill st1 r) with
    | error e => simp only [hd] at h; cases h
    | ok st2 =>
      simp only [hd] at h
      cases h
      have hwd1 : ∀ v, wetFill st1 r FieldKind.wetdry ≠ some (some v) := by
        intro v
        rw [wetFill_frame _ _ _ (by decide) (by decide) (by decide) (by decide)]
        exact hwd v
      have hst2 : st2 = st1 := dryCapture_of_skip hwd1 hd
      have hdry : st2.dry = st.dry := by rw [hst2, wetCapture_dry hw]
      refine ⟨hdry, ?_, ?_⟩
      · intro hnone
        show dryFill st2 (wetFill st1 r) FieldKind.wetdry = r FieldKind.wetdry
        rw [dryFill_of_unset (hdry.trans hnone)]
        exact wetFill_frame st1 r FieldKind.wetdry
          (by decide) (by decide) (by decide) (by decide)
      · intro w d hset
        show dryFill st2 (wetFill st1 r) FieldKind.wetdry = some (some w)
        exact dryFill_of_set (hdry.trans hset)

/-- The reading's `duration` is never written back by the loop. -/
theorem interpStep_duration {st : InterpState} {r : Reading}
    {sr : InterpState × Reading} (h : interpStep st r = .ok sr) :
    sr.2 FieldKind.duration = r FieldKind.duration :=
  interpStep_frame h FieldKind.duration
    ⟨by decide, by decide, by decide, by decide, by decide⟩

theorem interpGo_keys {st : InterpState} {l l2 : Timeline}
    (h : interpGo st l = .ok l2) : l2.map Prod.fst = l.map Prod.fst := by
  induction l generalizing st l2 with
  | nil => cases h; rfl
  | cons p rest ih =>
    rcases p with ⟨k, r⟩
    unfold interpGo at h
    cases hs : interpStep st r with
    | error e => simp only [hs] at h; cases h
    | ok sr =>
      simp only [hs] at h
      cases hg : interpGo sr.1 rest with
      | error e => simp only [hg] at h; cases h
      | ok rest2 =>
        simp only [hg] at h
        cases h
        simp [ih hg]

theorem interpGo_mem {st : InterpState} {l l2 : Timeline}
    (h : interpGo st l = .ok l2) :
    ∀ p ∈ l2, ∃ r0 st0 sr, (p.1, r0) ∈ l ∧ interpStep st0 r0 = .ok sr ∧ sr.2 = p.2 := by
  induction l generalizing st l2 with
  | nil => cases h; intro p hp; cases hp
  | cons q rest ih =>
    rcases q with ⟨k, r⟩
    unfold interpGo at h
    cases hs : interpStep st r with
    | error e => simp only [hs] at h; cases h
    | ok sr =>
      simp only [hs] at h
      cases hg : interpGo sr.1 rest with
      | error e => simp only [hg] at h; cases h
      | ok rest2 =>
        simp only [hg] at h
        cases h
        intro p hp
        rcases List.mem_cons.mp hp with rfl | hp2
        · exact ⟨r, st, sr, List.mem_cons_self _ _, hs, rfl⟩
        · obtain ⟨r0, st0, sr0, hmem, hstep, hval⟩ := ih hg p hp2
          exact ⟨r0, st0, sr0, List.mem_cons_of_mem _ hmem, hstep, hval⟩

theorem interpGo_ok {st : InterpState} {l : Timeline}
    (h : ∀ p ∈ l, ∀ f, p.2 f ≠ none) : ∃ l2, interpGo st l = .ok l2 := by
  induction l generalizing st with
  | nil => exact ⟨[], rfl⟩
  | cons q rest ih =>
    rcases q with ⟨k, r⟩
    obtain ⟨sr, hs⟩ := @interpStep_ok st _ (h (k, r) (List.mem_cons_self _ _))
    obtain ⟨l2, hg⟩ := @ih sr.1 (fun p hp => h p (List.mem_cons_of_mem _ hp))
    refine ⟨(k, sr.2) :: l2, ?_⟩
    unfold interpGo
    simp only [hs, hg]

theorem sortAsc_perm (tl : Timeline) : List.Perm (sortAsc tl) tl :=
  List.perm_insertionSort _ tl

theorem sortDesc_perm (tl : Timeline) : List.Perm (sortDesc tl) tl :=
  List.perm_insertionSort _ tl

theorem interpolate_keys_perm {tl out : Timeline} (h : interpolate tl = .ok out) :
    (out.map Prod.fst).Perm (tl.map Prod.fst) := by
  unfold interpolate at h
  cases hg : interpGo initInterp (sortDesc tl) with
  | error e => simp only [hg] at h; cases h
  | ok t =>
    simp only [hg] at h
    cases h
    have h1 : ((sortAsc t).map Prod.fst).Perm (t.map Prod.fst) :=
      (sortAsc_perm t).map _
    have h2 : t.map Prod.fst = (sortDesc tl).map Prod.fst := interpGo_keys hg
    have h3 : ((sortDesc tl).map Prod.fst).Perm (tl.map Prod.fst) :=
      (sortDesc_perm tl).map _
    exact h1.trans (h2 ▸ h3)

theorem interpolate_mem {tl out : Timeline} (h : interpolate tl = .ok out) :
    ∀ p ∈ out, ∃ r0 st0 sr, (p.1, r0) ∈ tl ∧ interpStep st0 r0 = .ok sr ∧ sr.2 = p.2 := by
  unfold interpolate at h
  cases hg : interpGo initInterp (sortDesc tl) with
  | error e => simp only [hg] at h; cases h
  | ok t =>
    simp only [hg] at h
    cases h
    intro p hp
    have hp2 : p ∈ t := (sortAsc_perm t).mem_iff.mp hp
    obtain ⟨r0, st0, sr, hmem, hstep, hval⟩ := interpGo_mem hg p hp2
    exact ⟨r0, st0, sr, (sortDesc_perm tl).mem_iff.mp hmem, hstep, hval⟩

theorem interpolate_ok {tl : Timeline} (h : ∀ p ∈ tl, ∀ f, p.2 f ≠ none) :
    ∃ out, interpolate tl = .ok out := by
  obtain ⟨l2, hg⟩ := @interpGo_ok initInterp _
    (fun p hp => h p ((sortDesc_perm tl).mem_iff.mp hp))
  refine ⟨sortAsc l2, ?_⟩
  unfold interpolate
  simp only [hg]

/-! ## Claim theorems -/

/-- C4: merging per-file timelines in file order treats each of the
eleven fields independently: an incoming value overwrites, a missing
incoming value leaves an existing value alone and otherwise stores an
explicit null; consequently after any sequence of files every key in
the output carries all eleven fields, and a key where one file set
`temp` and a later file set `light` holds both values. -/
theorem c4_merge_fields :
    (∀ existing incoming : Reading, ∀ f : FieldKind,
      (incoming f ≠ none → mergeReading existing incoming f = incoming f) ∧
      (incoming f = none → existing f = none →
        mergeReading existing incoming f = some none) ∧
      (incoming f = none → existing f ≠ none →
        mergeReading existing incoming f = existing f)) ∧
    (∀ tls : List Timeline, ∀ p ∈ mergeTimelines tls, ∀ f : FieldKind, p.2 f ≠ none) ∧
    (∀ existing incoming : Reading, ∀ x y : Option String,
      existing FieldKind.temp = some x → incoming FieldKind.temp = none →
      incoming FieldKind.light = some y →
      mergeReading existing incoming FieldKind.temp = some x ∧
      mergeReading existing incoming FieldKind.light = some y) := by
  refine ⟨?_, ?_, ?_⟩
  · intro ex inc f
    refine ⟨?_, ?_, ?_⟩
    · intro h1
      obtain ⟨v, hv⟩ := Option.ne_none_iff_exists'.mp h1
      rw [mergeReading_apply, hv]
      rfl
    · intro h1 h2
      rw [mergeReading_apply, h1, h2]
      rfl
    · intro h1 h2
      obtain ⟨w, hw⟩ := Option.ne_none_iff_exists'.mp h2
      rw [mergeReading_apply, h1, hw]
      rfl
  · exact fun tls p hp f => mergeTimelines_complete tls p hp f
  · intro ex inc x y hx hinc hy
    constructor
    · rw [mergeReading_apply, hinc, hx]
      rfl
    · rw [mergeReading_apply, hy]
      rfl

theorem c4_merge_fields_witness :
    mergeReading rNullC rWd FieldKind.wetdry = rWd FieldKind.wetdry ∧
    mergeReading rWd rNullC FieldKind.temp = some none := by
  constructor
  · exact (c4_merge_fields.1 rNullC rWd FieldKind.wetdry).1 (by with_unfolding_all decide)
  · exact ((c4_merge_fields.1 rWd rNullC FieldKind.temp).1 (by with_unfolding_all decide)).trans
      (by with_unfolding_all decide)

/-- C5: a `Drift (secs):` header line with a zero-length drift window
(`end == start`) raises an uncaught division error, and any error from
a file's lines aborts the whole run; with `end ≠ start` the line
succeeds and sets `dps = drift / (end - start)`. -/
theorem c5_drift_zero_window :
    (∀ (st : PState) (line ds : String) (d : Int),
      st.in_data = false →
      matchColHeader line = none → matchProgrammed line = none →
      matchEndOfLogging line = none → matchDrift line = some ds →
      parseIntPy ds = some d →
      (st.end_ = st.start → processLine st line = .error .divisionByZero) ∧
      (st.end_ ≠ st.start → processLine st line =
        .ok { st with drift := d, dps := (d : ℚ) / (((st.end_ : ℚ)) - ((st.start : ℚ))) })) ∧
    (∀ (st : PState) (line : String) (rest : List String) (e : Err),
      processLine st line = .error e → runLines st (line :: rest) = .error e) ∧
    (∀ (ls : List String) (pre post : List (List String)) (e : Err),
      read_data_file ls = .error e →
      ∃ e2, parseAll (pre ++ ls :: post) = .error e2) ∧
    (∀ (files : List (List String)) (e : Err),
      parseAll files = .error e → runPipeline files = .error e) := by
  refine ⟨?_, ?_, ?_, ?_⟩
  · intro st line ds d hin hcol hprog hend hdrift hint
    have hbody : processLine st line =
        (if st.end_ - st.start = 0 then Except.error Err.divisionByZero
         else Except.ok { st with drift := d, dps := (d : ℚ) / (((st.end_ : ℚ)) - ((st.start : ℚ))) }) := by
      unfold processLine
      rw [hin]
      simp only [Bool.false_eq_true, if_false]
      unfold processHeaderLine
      simp only [hcol, hprog, hend, hdrift, hint]
      rw [hin]
    constructor
    · intro heq
      rw [hbody, if_pos (by omega)]
    · intro hne
      rw [hbody, if_neg (by omega)]
  · intro st line rest e h
    unfold runLines
    simp only [h]
  · intro ls pre post e h
    induction pre with
    | nil =>
      refine ⟨e, ?_⟩
      simp only [List.nil_append]
      unfold parseAll
      simp only [h]
    | cons p pre ih =>
      obtain ⟨e2, he2⟩ := ih
      cases hp : read_data_file p with
      | error e3 =>
        refine ⟨e3, ?_⟩
        simp only [List.cons_append]
        unfold parseAll
        simp only [hp]
      | ok tl =>
        refine ⟨e2, ?_⟩
        simp only [List.cons_append]
        unfold parseAll
        simp only [hp, he2]
  · intro files e h
    unfold runPipeline
    simp only [h]

theorem c5_drift_zero_window_witness :
    processLine initPState "Drift (secs): 60." = .error Err.divisionByZero ∧
    runPipeline [["Drift (secs): 60."]] = .error Err.divisionByZero := by
  constructor
  · exact (c5_drift_zero_window.1 initPState "Drift (secs): 60." "60" 60
      rfl (by with_unfolding_all decide) (by with_unfolding_all decide)
      (by with_unfolding_all decide) (by with_unfolding_all decide)
      (by with_unfolding_all decide)).1 rfl
  · with_unfolding_all decide

/-- C6: a column-header line whose label is outside the fixed
six-label table fails with the propagated lookup error; a label inside
the table sets the active field (with `duration` aliased to `wetdry`)
and switches the parser to the data state. -/
theorem c6_header_label :
    ∀ (st : PState) (line label : String),
      st.in_data = false → matchColHeader line = some label →
      ((labelField label = none ↔
        label ∉ [labelTemp, "light(lux)", "wets0-50", labelWetMin,
          "wet/dry", "duration"]) ∧
       (labelField label = none → processLine st line = .error .keyError) ∧
       (∀ f, labelField label = some f →
        processLine st line =
          .ok { st with
            field := some (if f = FieldKind.duration then FieldKind.wetdry else f),
            in_data := true })) := by
  have hlookup : ∀ {β : Type} (l : List (String × β)) (a : String),
      l.lookup a = none ↔ a ∉ l.map Prod.fst := by
    intro β l a
    induction l with
    | nil => simp
    | cons p rest ih =>
      rcases p with ⟨k, v⟩
      by_cases hk : a = k
      · subst hk
        simp [List.lookup]
      · have hbeq : (a == k) = false := beq_eq_false_iff_ne.mpr hk
        simp [List.lookup, hbeq, ih, hk]
  intro st line label hin hcol
  refine ⟨?_, ?_, ?_⟩
  · unfold labelField
    rw [hlookup fieldsTable label]
    unfold fieldsTable
    simp
  · intro hnone
    unfold processLine
    rw [hin]
    simp only [Bool.false_eq_true, if_false]
    unfold processHeaderLine
    simp only [hcol, hnone]
  · intro f hf
    unfold processLine
    rw [hin]
    simp only [Bool.false_eq_true, if_false]
    unfold processHeaderLine
    simp only [hcol, hf]

theorem c6_header_label_witness :
    processLine initPState (colHeaderPre ++ "bogus") = .error Err.keyError ∧
    processLine initPState (colHeaderPre ++ "duration") =
      .ok { initPState with field := some FieldKind.wetdry, in_data := true } := by
  constructor
  · exact (c6_header_label initPState (colHeaderPre ++ "bogus") "bogus"
      rfl (by with_unfolding_all decide)).2.1 (by with_unfolding_all decide)
  · exact ((c6_header_label initPState (colHeaderPre ++ "duration") "duration"
      rfl (by with_unfolding_all decide)).2.2 FieldKind.duration
      (by with_unfolding_all decide)).trans (by with_unfolding_all decide)

/-- C7: `parse_time` is total and returns the sentinel 0 on any string
that does not match the `DD/MM/YYYY HH:MM:SS` format (including the
empty string) or whose date is out of range, and the data-state line
handler skips (leaves the state untouched for) any line whose parsed
timestamp is below 1, i.e. ≤ 0. -/
theorem c7_parse_sentinel :
    (∀ s : String, matchDateTime s = none → parse_time s = 0) ∧
    (∀ (s : String) (c : Civil), matchDateTime s = some c → validCivil c = false →
      parse_time s = 0) ∧
    parse_time "" = 0 ∧
    (∀ (st : PState) (line : String), st.in_data = true →
      parse_time ((line.splitOn "\t").headI) < 1 →
      processLine st line = .ok st) := by
  refine ⟨?_, ?_, ?_, ?_⟩
  · intro s h
    unfold parse_time
    rw [h]
  · intro s c h1 h2
    unfold parse_time
    simp only [h1, h2, Bool.false_eq_true, if_false]
  · with_unfolding_all decide
  · intro st line hin hlt
    unfold processLine
    rw [hin]
    simp only [if_true]
    by_cases hh : (line.splitOn "\t").headI = ""
    · simp [processDataLine, hh]
    · simp [processDataLine, hh, hlt]

theorem c7_parse_sentinel_witness :
    parse_time "not-a-date" = 0 ∧
    processLine { initPState with in_data := true, field := some FieldKind.temp }
      "not-a-date\t42" =
      .ok { initPState with in_data := true, field := some FieldKind.temp } := by
  constructor
  · exact c7_parse_sentinel.1 "not-a-date" (by with_unfolding_all decide)
  · exact c7_parse_sentinel.2.2.2
      { initPState with in_data := true, field := some FieldKind.temp }
      "not-a-date\t42" rfl (by with_unfolding_all decide)

/-- C8: for every string matching the `DD/MM/YYYY HH:MM:SS` format and
denoting a valid date-time, formatting the parsed timestamp reproduces
the same instant in the `YYYY-MM-DD HH:MM:SS` display form. -/
theorem c8_round_trip (s : String) (c : Civil) (h1 : matchDateTime s = some c)
    (h2 : validCivil c = true) : time_to_string (parse_time s) = renderDisplay c := by
  unfold parse_time
  simp only [h1, if_pos h2]
  exact time_to_string_mktime c h2

theorem c8_round_trip_witness :
    time_to_string (parse_time "01/01/2022 00:00:00") =
      renderDisplay ⟨2022, 1, 1, 0, 0, 0⟩ ∧
    renderDisplay ⟨2022, 1, 1, 0, 0, 0⟩ = "2022-01-01 00:00:00" := by
  constructor
  · exact c8_round_trip "01/01/2022 00:00:00" ⟨2022, 1, 1, 0, 0, 0⟩
      (by with_unfolding_all decide) (by with_unfolding_all decide)
  · with_unfolding_all decide

theorem interpolate_sorted {tl out : Timeline} (h : interpolate tl = .ok out) :
    List.Sorted (fun a b : String × Reading => a.1 ≤ b.1) out := by
  unfold interpolate at h
  cases hg : interpGo initInterp (sortDesc tl) with
  | error e => simp only [hg] at h; cases h
  | ok t =>
    simp only [hg] at h
    cases h
    exact List.sorted_insertionSort _ t

/-- C9: the final table holds exactly one row per unique adjusted-UTC
timestamp key occurring in any input file's timeline, and the rows are
in ascending key order. -/
theorem c9_output_rows (tls : List Timeline) (out : Timeline)
    (h : interpolate (mergeTimelines tls) = .ok out) :
    (out.map Prod.fst).Nodup ∧
    List.Sorted (· ≤ ·) (out.map Prod.fst) ∧
    (∀ k : String, k ∈ out.map Prod.fst ↔ ∃ tl ∈ tls, k ∈ tl.map Prod.fst) := by
  refine ⟨?_, ?_, ?_⟩
  · exact ((interpolate_keys_perm h).nodup_iff).mpr (nodup_keys_mergeTimelines tls)
  · exact List.Pairwise.map Prod.fst (fun a b hab => hab) (interpolate_sorted h)
  · intro k
    rw [(interpolate_keys_perm h).mem_iff]
    exact mem_keys_mergeTimelines tls k

theorem c9_output_rows_witness :
    (outC9.map Prod.fst).Nodup ∧ List.Sorted (· ≤ ·) (outC9.map Prod.fst) ∧
    ("1" ∈ outC9.map Prod.fst ↔ ∃ tl ∈ tlsC9, "1" ∈ tl.map Prod.fst) := by
  have h := c9_output_rows tlsC9 outC9 (by with_unfolding_all decide)
  exact ⟨h.1, h.2.1, h.2.2 "1"⟩

/-- C10: interpolation only ever changes the five fields `wetdry` and
`wet_temp_min/max/mean/samples`: its output has the same keys as its
input (as a permutation, before the final ascending ordering), and
every output reading agrees with its input reading on `time`,
`localtime`, `temp`, `light`, `wets` and `duration`. -/
theorem c10_interpolation_frame (tl out : Timeline) (h : interpolate tl = .ok out) :
    ((out.map Prod.fst).Perm (tl.map Prod.fst)) ∧
    (∀ p ∈ out, ∃ r0, (p.1, r0) ∈ tl ∧
      p.2 FieldKind.time = r0 FieldKind.time ∧
      p.2 FieldKind.localtime = r0 FieldKind.localtime ∧
      p.2 FieldKind.temp = r0 FieldKind.temp ∧
      p.2 FieldKind.light = r0 FieldKind.light ∧
      p.2 FieldKind.wets = r0 FieldKind.wets ∧
      p.2 FieldKind.duration = r0 FieldKind.duration) := by
  refine ⟨interpolate_keys_perm h, ?_⟩
  intro p hp
  obtain ⟨r0, st0, sr, hmem, hstep, hval⟩ := interpolate_mem h p hp
  refine ⟨r0, hmem, ?_, ?_, ?_, ?_, ?_, ?_⟩ <;> rw [← hval] <;>
    exact interpStep_frame hstep _ ⟨by decide, by decide, by decide, by decide, by decide⟩

theorem c10_interpolation_frame_witness :
    (outC1.map Prod.fst).Perm (tlC1.map Prod.fst) :=
  (c10_interpolation_frame tlC1 outC1 (by with_unfolding_all decide)).1

/-- C1 as stated is false: on the two-reading timeline `tlC1`, the dry
state is set (it fills the older reading's `wetdry` from the newer
reading), yet the older reading's `duration` field is left at its
explicit null instead of being overwritten with the state's captured
duration value "30". -/
theorem c1_counterexample :
    interpolate tlC1 = .ok outC1 ∧
    r1C1 FieldKind.wetdry = some (some "wet") ∧
    r1C1 FieldKind.duration = some none ∧
    r1C1 FieldKind.duration ≠ some (some "30") ∧
    rWd FieldKind.duration = some (some "30") := by
  with_unfolding_all decide

/-- C1 amended: walking in descending time order, whenever a reading
defines `wetdry` (non-null) the rolling dry state captures both its
`wetdry` and its `duration`; whenever the dry state is set, only the
`wetdry` field of the current reading is overwritten from it — the
`duration` field is never written back by the interpolation loop. -/
theorem c1_dry_fill_amended :
    ∀ (st : InterpState) (r : Reading) (sr : InterpState × Reading),
      interpStep st r = .ok sr →
      ((∀ v, r FieldKind.wetdry = some (some v) →
        ∃ d, r FieldKind.duration = some d ∧ sr.1.dry = some (v, d) ∧
          sr.2 FieldKind.wetdry = some (some v)) ∧
       ((∀ v, r FieldKind.wetdry ≠ some (some v)) → sr.1.dry = st.dry ∧
         (∀ w d, st.dry = some (w, d) → sr.2 FieldKind.wetdry = some (some w))) ∧
       sr.2 FieldKind.duration = r FieldKind.duration) := by
  intro st r sr h
  refine ⟨?_, ?_, interpStep_duration h⟩
  · intro v hv
    exact interpStep_dry_of_val h hv
  · intro hv
    obtain ⟨a, _, b⟩ := interpStep_dry_of_skip h hv
    exact ⟨a, b⟩

theorem c1_dry_fill_amended_witness :
    srWd.2 FieldKind.duration = rWd FieldKind.duration :=
  (c1_dry_fill_amended initInterp rWd srWd (by with_unfolding_all decide)).2.2

theorem storeFields_ok {st : PState} {row : List String} {base : Reading}
    {atime : String} {st2 : PState}
    (h : storeFields st row base atime = .ok st2) :
    ∃ r, st2 = { st with data := putEntry st.data atime r } := by
  unfold storeFields at h
  split at h
  · split at h
    · cases h; exact ⟨_, rfl⟩
    · cases h
    · cases h
  · split at h
    · cases h; exact ⟨_, rfl⟩
    · cases h
    · cases h
    · cases h
    · cases h
  · split at h
    · cases h; exact ⟨_, rfl⟩
    · cases h
  · split at h
    · cases h; exact ⟨_, rfl⟩
    · cases h

/-- C2 as stated is false: with `dps = 3/4` and a raw time one second
past the drift-window start, the claim's formula
`rawTime + round(dps * (rawTime - start))` lands on epoch second 2,
but the reading is keyed at epoch second 1: the drift term is added
unrounded and the fractional part is only truncated by formatting. -/
theorem c2_counterexample :
    (processLine stC2 lineC2).map (fun s => s.data) =
      .ok [("1970-01-01 00:00:01", readingC2)] ∧
    time_to_string (1 + round ((3 : ℚ) / 4 * ((1 : ℚ) - 0))) = "1970-01-01 00:00:02" ∧
    ("1970-01-01 00:00:01" : String) ≠ "1970-01-01 00:00:02" := by
  with_unfolding_all decide

/-- C2 amended: a data line parsed in the data state with raw time `t`
is keyed by `time_to_string ⌊t + dps * (t - start)⌋`: the drift term
is added as an exact (possibly fractional) value with no rounding, and
the sub-second part is only dropped when the timestamp is formatted
into the key. -/
theorem c2_adjusted_time_amended :
    ∀ (st : PState) (line : String) (d2 : Timeline) (t : Int),
      st.in_data = true →
      parse_time ((line.splitOn "\t").headI) = t →
      1 ≤ t →
      (processLine st line).map (fun s => s.data) = .ok d2 →
      d2.map Prod.fst =
        (if time_to_string ⌊(t : ℚ) + st.dps * ((t : ℚ) - (st.start : ℚ))⌋ ∈
            st.data.map Prod.fst
         then st.data.map Prod.fst
         else st.data.map Prod.fst ++
           [time_to_string ⌊(t : ℚ) + st.dps * ((t : ℚ) - (st.start : ℚ))⌋]) := by
  intro st line d2 t hin hparse ht h
  have hpl : processLine st line = processDataLine st line := by
    unfold processLine
    rw [hin]
    rfl
  rw [hpl] at h
  cases hpd : processDataLine st line with
  | error e =>
    rw [hpd] at h
    simp only [Except.map] at h
    cases h
  | ok st2 =>
    rw [hpd] at h
    simp only [Except.map, Except.ok.injEq] at h
    subst h
    replace h := hpd
    simp only [processDataLine] at h
    by_cases hh : (line.splitOn "\t").headI = ""
    · exfalso
      rw [hh] at hparse
      have h0 : parse_time "" = 0 := by with_unfolding_all decide
      omega
    · rw [if_neg hh, hparse, if_neg (show ¬ (t < 1) by omega)] at h
      obtain ⟨r, hr⟩ := storeFields_ok h
      rw [hr]
      exact keys_putEntry st.data _ r

theorem c2_adjusted_time_amended_witness :
    [("1970-01-01 00:00:01", readingC2)].map Prod.fst =
      (if time_to_string ⌊((1 : Int) : ℚ) + stC2.dps * (((1 : Int) : ℚ) - (stC2.start : ℚ))⌋ ∈
          stC2.data.map Prod.fst
       then stC2.data.map Prod.fst
       else stC2.data.map Prod.fst ++
         [time_to_string ⌊((1 : Int) : ℚ) + stC2.dps * (((1 : Int) : ℚ) - (stC2.start : ℚ))⌋]) :=
  c2_adjusted_time_amended stC2 lineC2 [("1970-01-01 00:00:01", readingC2)] 1 rfl
    (by with_unfolding_all decide) (by decide) (by with_unfolding_all decide)

/-- C3 as stated is false: in the five-reading descending scenario
`tlC3` (only the 1st and 4th readings define `wetdry`), readings 2 and
3 do inherit the 1st reading's value, but the 5th (oldest) reading
does not stay null — it inherits the 4th reading's value "B". -/
theorem c3_counterexample :
    interpolate tlC3 = .ok outC3 ∧
    rC3NB FieldKind.wetdry = some (some "B") ∧
    rC3NB FieldKind.wetdry ≠ some none ∧
    rC3NA FieldKind.wetdry = some (some "A") := by
  with_unfolding_all decide

/-- C3 amended: in a five-reading descending timeline where only the
1st and 4th readings define `wetdry`, interpolation gives readings 2
and 3 the 1st reading's value, and gives reading 5 (the oldest) the
4th reading's value — it does not remain absent, since the 4th reading
is more recent than it. -/
theorem c3_interpolation_amended :
    ∀ (k1 k2 k3 k4 k5 : String) (r1 r2 r3 r4 r5 : Reading) (v1 v4 : String),
      k2 < k1 → k3 < k2 → k4 < k3 → k5 < k4 →
      (∀ f, r1 f ≠ none) → (∀ f, r2 f ≠ none) → (∀ f, r3 f ≠ none) →
      (∀ f, r4 f ≠ none) → (∀ f, r5 f ≠ none) →
      r1 FieldKind.wetdry = some (some v1) →
      r2 FieldKind.wetdry = some none → r3 FieldKind.wetdry = some none →
      r4 FieldKind.wetdry = some (some v4) → r5 FieldKind.wetdry = some none →
      ∃ out, interpolate [(k1, r1), (k2, r2), (k3, r3), (k4, r4), (k5, r5)] = .ok out ∧
        (∃ r, (k2, r) ∈ out) ∧ (∃ r, (k3, r) ∈ out) ∧ (∃ r, (k5, r) ∈ out) ∧
        (∀ r, (k2, r) ∈ out → r FieldKind.wetdry = some (some v1)) ∧
        (∀ r, (k3, r) ∈ out → r FieldKind.wetdry = some (some v1)) ∧
        (∀ r, (k5, r) ∈ out → r FieldKind.wetdry = some (some v4)) := by
  intro k1 k2 k3 k4 k5 r1 r2 r3 r4 r5 v1 v4 h21 h32 h43 h54
  intro hc1 hc2 hc3 hc4 hc5 hw1 hw2 hw3 hw4 hw5
  have h31 : k3 < k1 := h32.trans h21
  have h41 : k4 < k1 := h43.trans h31
  have h42 : k4 < k2 := h43.trans h32
  have h51 : k5 < k1 := h54.trans h41
  have h52 : k5 < k2 := h54.trans h42
  have h53 : k5 < k3 := h54.trans h43
  have hsorted : List.Sorted (fun a b : String × Reading => b.1 ≤ a.1)
      [(k1, r1), (k2, r2), (k3, r3), (k4, r4), (k5, r5)] := by
    refine List.Pairwise.cons ?_ (List.Pairwise.cons ?_ (List.Pairwise.cons ?_
      (List.Pairwise.cons ?_ (List.Pairwise.cons ?_ List.Pairwise.nil))))
    · intro b hb
      rcases List.mem_cons.mp hb with rfl | hb
      · exact le_of_lt h21
      rcases List.mem_cons.mp hb with rfl | hb
      · exact le_of_lt h31
      rcases List.mem_cons.mp hb with rfl | hb
      · exact le_of_lt h41
      rcases List.mem_cons.mp hb with rfl | hb
      · exact le_of_lt h51
      cases hb
    · intro b hb
      rcases List.mem_cons.mp hb with rfl | hb
      · exact le_of_lt h32
      rcases List.mem_cons.mp hb with rfl | hb
      · exact le_of_lt h42
      rcases List.mem_cons.mp hb with rfl | hb
      · exact le_of_lt h52
      cases hb
    · intro b hb
      rcases List.mem_cons.mp hb with rfl | hb
      · exact le_of_lt h43
      rcases List.mem_cons.mp hb with rfl | hb
      · exact le_of_lt h53
      cases hb
    · intro b hb
      rcases List.mem_cons.mp hb with rfl | hb
      · exact le_of_lt h54
      cases hb
    · intro b hb
      cases hb
  have hdesc : sortDesc [(k1, r1), (k2, r2), (k3, r3), (k4, r4), (k5, r5)] =
      [(k1, r1), (k2, r2), (k3, r3), (k4, r4), (k5, r5)] := by
    unfold sortDesc
    exact List.Sorted.insertionSort_eq hsorted
  obtain ⟨sr1, hs1⟩ := @interpStep_ok initInterp _ hc1
  obtain ⟨d1, hdur1, hdry1, hfill1⟩ := interpStep_dry_of_val hs1 hw1
  obtain ⟨sr2, hs2⟩ := @interpStep_ok sr1.1 _ hc2
  have hne2 : ∀ v, r2 FieldKind.wetdry ≠ some (some v) := by
    intro v hv
    rw [hw2] at hv
    cases hv
  obtain ⟨hd2, _, hfillset2⟩ := interpStep_dry_of_skip hs2 hne2
  have hdry2 : sr2.1.dry = some (v1, d1) := by rw [hd2, hdry1]
  have hval2 : sr2.2 FieldKind.wetdry = some (some v1) := hfillset2 v1 d1 hdry1
  obtain ⟨sr3, hs3⟩ := @interpStep_ok sr2.1 _ hc3
  have hne3 : ∀ v, r3 FieldKind.wetdry ≠ some (some v) := by
    intro v hv
    rw [hw3] at hv
    cases hv
  obtain ⟨hd3, _, hfillset3⟩ := interpStep_dry_of_skip hs3 hne3
  have hval3 : sr3.2 FieldKind.wetdry = some (some v1) := hfillset3 v1 d1 hdry2
  obtain ⟨sr4, hs4⟩ := @interpStep_ok sr3.1 _ hc4
  obtain ⟨d4, hdur4, hdry4, hfill4⟩ := interpStep_dry_of_val hs4 hw4
  obtain ⟨sr5, hs5⟩ := @interpStep_ok sr4.1 _ hc5
  have hne5 : ∀ v, r5 FieldKind.wetdry ≠ some (some v) := by
    intro v hv
    rw [hw5] at hv
    cases hv
  obtain ⟨hd5, _, hfillset5⟩ := interpStep_dry_of_skip hs5 hne5
  have hval5 : sr5.2 FieldKind.wetdry = some (some v4) := hfillset5 v4 d4 hdry4
  have hgo : interpGo initInterp [(k1, r1), (k2, r2), (k3, r3), (k4, r4), (k5, r5)] =
      .ok [(k1, sr1.2), (k2, sr2.2), (k3, sr3.2), (k4, sr4.2), (k5, sr5.2)] := by
    simp only [interpGo, hs1, hs2, hs3, hs4, hs5]
  have hout : interpolate [(k1, r1), (k2, r2), (k3, r3), (k4, r4), (k5, r5)] =
      .ok (sortAsc [(k1, sr1.2), (k2, sr2.2), (k3, sr3.2), (k4, sr4.2), (k5, sr5.2)]) := by
    unfold interpolate
    rw [hdesc]
    simp only [hgo]
  refine ⟨sortAsc [(k1, sr1.2), (k2, sr2.2), (k3, sr3.2), (k4, sr4.2), (k5, sr5.2)],
    hout, ?_, ?_, ?_, ?_, ?_, ?_⟩
  · exact ⟨sr2.2, (sortAsc_perm _).mem_iff.mpr (by simp)⟩
  · exact ⟨sr3.2, (sortAsc_perm _).mem_iff.mpr (by simp)⟩
  · exact ⟨sr5.2, (sortAsc_perm _).mem_iff.mpr (by simp)⟩
  · intro r hr
    have hr2 := (sortAsc_perm _).mem_iff.mp hr
    simp only [List.mem_cons, List.not_mem_nil, or_false] at hr2
    rcases hr2 with h | h | h | h | h
    · injection h with hk _
      exact absurd hk (ne_of_lt h21)
    · injection h with _ hv
      rw [hv]
      exact hval2
    · injection h with hk _
      exact absurd hk.symm (ne_of_lt h32)
    · injection h with hk _
      exact absurd hk.symm (ne_of_lt (h43.trans h32))
    · injection h with hk _
      exact absurd hk.symm (ne_of_lt h52)
  · intro r hr
    have hr2 := (sortAsc_perm _).mem_iff.mp hr
    simp only [List.mem_cons, List.not_mem_nil, or_false] at hr2
    rcases hr2 with h | h | h | h | h
    · injection h with hk _
      exact absurd hk (ne_of_lt h31)
    · injection h with hk _
      exact absurd hk (ne_of_lt h32)
    · injection h with _ hv
      rw [hv]
      exact hval3
    · injection h with hk _
      exact absurd hk.symm (ne_of_lt h43)
    · injection h with hk _
      exact absurd hk.symm (ne_of_lt h53)
  · intro r hr
    have hr2 := (sortAsc_perm _).mem_iff.mp hr
    simp only [List.mem_cons, List.not_mem_nil, or_false] at hr2
    rcases hr2 with h | h | h | h | h
    · injection h with hk _
      exact absurd hk (ne_of_lt h51)
    · injection h with hk _
      exact absurd hk (ne_of_lt h52)
    · injection h with hk _
      exact absurd hk (ne_of_lt h53)
    · injection h with hk _
      exact absurd hk (ne_of_lt h54)
    · injection h with _ hv
      rw [hv]
      exact hval5

theorem c3_interpolation_amended_witness :
    ∃ out, interpolate [("5", rC3A), ("4", rC3N), ("3", rC3N), ("2", rC3B), ("1", rC3N)] =
        .ok out ∧
      (∃ r, ("4", r) ∈ out) ∧ (∃ r, ("3", r) ∈ out) ∧ (∃ r, ("1", r) ∈ out) ∧
      (∀ r, ("4", r) ∈ out → r FieldKind.wetdry = some (some "A")) ∧
      (∀ r, ("3", r) ∈ out → r FieldKind.wetdry = some (some "A")) ∧
      (∀ r, ("1", r) ∈ out → r FieldKind.wetdry = some (some "B")) :=
  c3_interpolation_amended "5" "4" "3" "2" "1" rC3A rC3N rC3N rC3B rC3N "A" "B"
    (by with_unfolding_all decide) (by with_unfolding_all decide)
    (by with_unfolding_all decide) (by with_unfolding_all decide)
    (by with_unfolding_all decide) (by with_unfolding_all decide)
    (by with_unfolding_all decide) (by with_unfolding_all decide)
    (by with_unfolding_all decide) (by with_unfolding_all decide)
    (by with_unfolding_all decide) (by with_unfolding_all decide)
    (by with_unfolding_all decide) (by with_unfolding_all decide)
